import Mathlib

/-
Verification of the numberlink_solver SAT reduction (src/main.rs).

The Rust source is shallowly embedded below.  Grid cells are pairs of
naturals, fields are lists of rows, machine integers are Nat/Int with
explicit two's-complement casts where the source relies on them, and
every fallible operation (indexing that can go out of bounds, hash-map
lookups, loops that may not terminate) is made explicit through Option
or an explicit fuel parameter.  The convention for panics: a result of
`none` in the Option layer models a Rust panic (out-of-bounds indexing
or a missing key); `some none` models an orderly `return None`.

SAT literals follow varisat's `Lit::from_var(var, polarity)` convention:
a literal is a pair (variable index, polarity) where polarity `true` is
the positive literal, and `Var::negative()` is (index, false).  The
external SAT engine is opaque; it enters the embedding only as an
oracle argument (its reported model, if any), which is all
`solve_numberlink` ever sees of it.
-/

namespace Numberlink

/-- Grid position, mirroring `type P = (usize, usize)`. -/
abbrev P : Type := Nat × Nat

/-- Directed arc between two positions, mirroring `type Arc = (P, P)`. -/
abbrev Arc : Type := P × P

/-- A field is a grid of labels, mirroring `type Field = Vec<Vec<usize>>`. -/
abbrev Field : Type := List (List Nat)

/-- Mirror of `type Sol = Vec<Arc>`. -/
abbrev Sol : Type := List Arc

/-- A literal: variable index together with a polarity (`true` = positive). -/
abbrev CLit : Type := Nat × Bool

/-- A clause is a disjunction of literals. -/
abbrev Clause : Type := List CLit

/-- Population count of the low 32 bits, embedding `(bit as u32).popcnt()`
from the bitintr crate. -/
def popcnt32 (x : Nat) : Nat :=
  ((List.range 32).filter (fun i => x.testBit i)).length

/-- Embedding of `mk_clause_eq1` (src/main.rs lines 173-193): for an
assignment pattern `bit`, skip it when its popcount is `n - 1`, otherwise
emit the clause whose literal `i` is positive exactly when bit `i` of
`bit` is set (such a clause is falsified exactly by the complement
assignment of `bit`). -/
def mk_clause_eq1 (vars : List Nat) : List Clause :=
  let n := vars.length
  (List.range (2 ^ n)).filterMap (fun bit =>
    if popcnt32 bit = n - 1 then none
    else some ((List.range n).map (fun i => ((vars.getD i 0, bit.testBit i) : CLit))))

/-- Embedding of `mk_clause_less2` (src/main.rs lines 195-215): skip the
pattern `bit` when `n < 2 + popcnt(bit)`, otherwise emit the blocking
clause as in `mk_clause_eq1`. -/
def mk_clause_less2 (vars : List Nat) : List Clause :=
  let n := vars.length
  (List.range (2 ^ n)).filterMap (fun bit =>
    if n < 2 + popcnt32 bit then none
    else some ((List.range n).map (fun i => ((vars.getD i 0, bit.testBit i) : CLit))))

/-- A literal is satisfied when the assignment gives its variable its
polarity. -/
def litSat (a : Nat → Bool) (l : CLit) : Bool := a l.1 == l.2

/-- A clause is satisfied when some literal is. -/
def clauseSat (a : Nat → Bool) (c : Clause) : Bool := c.any (litSat a)

/-- A clause set is satisfied when every clause is. -/
def formulaSat (a : Nat → Bool) (f : List Clause) : Bool := f.all (clauseSat a)

/-- Number of true variables among `0..n-1` under assignment `a`. -/
def trueCount (a : Nat → Bool) (n : Nat) : Nat :=
  ((List.range n).filter (fun i => a i)).length

/-- Two's-complement cast of a signed value to `usize` on a 64-bit
target, as performed by Rust's `as usize` on an `i32` (sign extension
then reinterpretation). -/
def castUsize (x : Int) : Nat := (x % (2 : Int) ^ 64).toNat

/-- Embedding of `adj` (src/main.rs lines 217-235): walk the four
direction offsets `(dy, dx)` in the order right, down, left, up, form
`ni = p.0 + dy` and `nj = p.1 + dx` with the `usize` cast, keep the
neighbour when `ni < width && nj < height` and it was not yet seen
(the HashSet `st`), preserving insertion order. -/
def adj (p : P) (width height : Nat) : List P :=
  let ds : List (Int × Int) := [(0, 1), (1, 0), (0, -1), (-1, 0)]
  (ds.foldl
    (fun acc d =>
      let ni := castUsize ((p.1 : Int) + d.1)
      let nj := castUsize ((p.2 : Int) + d.2)
      if ni < width ∧ nj < height ∧ ¬ (ni, nj) ∈ acc.1 then
        ((ni, nj) :: acc.1, acc.2 ++ [((ni, nj) : P)])
      else acc)
    ([], [])).2

/-- Embedding of `gen_arcs` (src/main.rs lines 237-252): for `i` in
`0..width` and `j` in `0..height`, one arc per `(cell, neighbour)` pair
in the order `adj` produces. -/
def gen_arcs (width height : Nat) : List Arc :=
  (List.range width).flatMap (fun i =>
    (List.range height).flatMap (fun j =>
      (adj (i, j) width height).map (fun v => ((((i, j) : P), v) : Arc))))

/-- The cells of a field in row-major order, each with its position:
the traversal order of the nested loops in `parse_field`. -/
def cellsRM (field : Field) : List (P × Nat) :=
  field.enum.flatMap (fun r => r.2.enum.map (fun c => ((((r.1, c.1) : P), c.2) : P × Nat)))

/-- Loop body of `parse_field` (src/main.rs lines 150-171) over the
remaining row-major cells.  State: `cnt` is the `vec![0; 17]` counter
vector, `ends` the two endpoint vectors, `b` the body list.  For a cell
with value `p > 0` the source evaluates `cnt[p]` (a panic, modelled
`none`, when `p ≥ 17`), then `ends[cnt[p]]` (a panic when `cnt[p] ≥ 2`),
pushes the position, increments `cnt[p]` and only then compares it with
2; `some none` models the `return None` branch. -/
def parse_go : List (P × Nat) → List Nat → List (List P) → List P →
    Option (Option (List P × List P × List P))
  | [], _, ends, b => some (some (ends.getD 0 [], ends.getD 1 [], b))
  | c :: rest, cnt, ends, b =>
    if 0 < c.2 then
      match cnt.get? c.2 with
      | none => none
      | some k =>
        match ends.get? k with
        | none => none
        | some e =>
          if k + 1 > 2 then some none
          else parse_go rest (cnt.set c.2 (k + 1)) (ends.set k (e ++ [c.1])) b
    else parse_go rest cnt ends (b ++ [c.1])

/-- Embedding of `parse_field` (src/main.rs lines 150-171). -/
def parse_field (field : Field) : Option (Option (List P × List P × List P)) :=
  parse_go (cellsRM field) (List.replicate 17 0) [[], []] []

/-- The positions whose label has already been seen exactly `k` times,
in row-major order; `cnt` carries how often each label was seen before
the remaining cells. -/
def occsAt (k : Nat) : (Nat → Nat) → List (P × Nat) → List P
  | _, [] => []
  | cnt, c :: rest =>
    if 0 < c.2 then
      (if cnt c.2 = k then [c.1] else []) ++
        occsAt k (fun q => if q = c.2 then cnt q + 1 else cnt q) rest
    else occsAt k cnt rest

/-- First row-major occurrence of each nonzero label. -/
def sourcesOf (l : List (P × Nat)) : List P := occsAt 0 (fun _ => 0) l

/-- Second row-major occurrence of each nonzero label. -/
def targetsOf (l : List (P × Nat)) : List P := occsAt 1 (fun _ => 0) l

/-- The zero-labelled positions in row-major order. -/
def zerosOf (l : List (P × Nat)) : List P :=
  l.filterMap (fun c => if c.2 = 0 then some c.1 else none)

/-- Embedding of `get_num` (src/main.rs lines 314-325) on the character
it reads: Rust's `char::is_digit(16)` / `to_digit(16)`, accepting
`0`-`9`, `a`-`f` and `A`-`F`. -/
def get_num (c : Char) : Option Nat :=
  if '0' ≤ c ∧ c ≤ '9' then some (c.toNat - 48)
  else if 'a' ≤ c ∧ c ≤ 'f' then some (c.toNat - 97 + 10)
  else if 'A' ≤ c ∧ c ≤ 'F' then some (c.toNat - 65 + 10)
  else none

/-- The assignment `res[i][j] = num`: `none` models the panic when `i`
is not a valid row index or `j` not a valid column index. -/
def setCell (res : Field) (i j v : Nat) : Option Field :=
  match res.get? i with
  | none => none
  | some row =>
    match row.get? j with
    | none => none
    | some _ => some (res.set i (row.set j v))

/-- Outcome of running the decoder with a fuel bound on its outer loop. -/
inductive DecRes where
  | ok : Field → DecRes
  | oob : DecRes
  | spin : DecRes
deriving DecidableEq

/-- The inner `while let Some(num) = get_num(index, list)` loop of
`decode_field` (src/main.rs lines 292-306), acting on the suffix of the
code starting at `index` (so the current character is the head): write
the digit, advance `index` and the row-major cursor, and break once
`index` reaches the end of the code.  The empty-suffix case models the
out-of-bounds read `list[index]` would perform. -/
def hexLoopGo (width : Nat) :
    List Char → Nat → Nat → Nat → Field → Option (Nat × Nat × Nat × Field)
  | [], _, _, _, _ => none
  | ch :: rest, index, i, j, res =>
    match get_num ch with
    | none => some (index, i, j, res)
    | some num =>
      match setCell res i j num with
      | none => none
      | some res2 =>
        let ij : Nat × Nat := if width ≤ j + 1 then (i + 1, 0) else (i, j + 1)
        if rest.isEmpty then some (index + 1, ij.1, ij.2, res2)
        else hexLoopGo width rest (index + 1) ij.1 ij.2 res2

/-- The `consume` skip-scan (src/main.rs lines 327-349), acting on the
suffix of the code starting at `index`: while the current character is
not a hex digit, compute `value = ch - 'f'` as a signed difference,
abort on a non-positive value, otherwise advance the cursor by `value`
blank cells (wrapping the column by `width`) and move on. -/
def consumeGo (width : Nat) : List Char → Nat → Nat → Nat → Nat × Nat × Nat
  | [], index, i, j => (index, i, j)
  | ch :: rest, index, i, j =>
    if (get_num ch).isSome then (index, i, j)
    else
      let value : Int := (ch.toNat : Int) - 102
      if value ≤ 0 then (index, i, j)
      else
        let j2 := j + value.toNat
        let ij : Nat × Nat := if width ≤ j2 then (i + j2 / width, j2 % width) else (i, j2)
        consumeGo width rest (index + 1) ij.1 ij.2

/-- The outer `while index < list.len()` loop of `decode_field`
(src/main.rs lines 283-312), with an explicit fuel bound on the number
of outer iterations: run the hex-digit loop, then `consume`, repeat.
`DecRes.spin` reports that the fuel ran out before the loop exited. -/
def decodeLoop (list : List Char) (width : Nat) :
    Nat → Nat → Nat → Nat → Field → DecRes
  | 0, _, _, _, _ => DecRes.spin
  | fuel + 1, index, i, j, res =>
    match list.drop index with
    | [] => DecRes.ok res
    | ch :: rest =>
      match hexLoopGo width (ch :: rest) index i j res with
      | none => DecRes.oob
      | some st =>
        let c := consumeGo width (list.drop st.1) st.1 st.2.1 st.2.2.1
        decodeLoop list width fuel c.1 c.2.1 c.2.2 st.2.2.2

/-- Embedding of `decode_field` (src/main.rs lines 283-312) with a fuel
bound on its outer loop. -/
def decode_field (fuel width height : Nat) (code : List Char) : DecRes :=
  decodeLoop code width fuel 0 0 0 (List.replicate height (List.replicate width 0))

/-- The character class `[0-9a-zA-Z]` named by the specification. -/
def isAsciiAlnum (c : Char) : Bool :=
  let n := c.toNat
  decide ((48 ≤ n ∧ n ≤ 57) ∨ (65 ≤ n ∧ n ≤ 90) ∨ (97 ≤ n ∧ n ≤ 122))

/-- Embedding of Rust's `char::is_alphanumeric` (Unicode `Alphabetic`
or general category `Nd`, `Nl`, `No`), tabulated exactly on the Latin-1
range (codepoints below 0x100): ASCII digits and letters, the letters
`ª µ º À-Ö Ø-ö ø-ÿ` and the numeric characters `² ³ ¹ ¼ ½ ¾`.  The
theorems below only evaluate it on that range; codepoints from 0x100 up
are outside the tabulation and are not modelled. -/
def char_is_alphanumeric (c : Char) : Bool :=
  let n := c.toNat
  decide ((48 ≤ n ∧ n ≤ 57) ∨ (65 ≤ n ∧ n ≤ 90) ∨ (97 ≤ n ∧ n ≤ 122) ∨
    n = 0xAA ∨ n = 0xB5 ∨ n = 0xBA ∨
    n = 0xB2 ∨ n = 0xB3 ∨ n = 0xB9 ∨ (0xBC ≤ n ∧ n ≤ 0xBE) ∨
    (0xC0 ≤ n ∧ n ≤ 0xD6) ∨ (0xD8 ≤ n ∧ n ≤ 0xF6) ∨ (0xF8 ≤ n ∧ n ≤ 0xFF))

/-- Embedding of `is_valid_code` (src/main.rs lines 279-281):
`code.chars().all(char::is_alphanumeric)`. -/
def is_valid_code (code : List Char) : Bool := code.all char_is_alphanumeric

/-- The label of the cell at position `p`, i.e. `field[p.0][p.1]`;
`none` models the out-of-bounds panic. -/
def lookupCell (field : Field) (p : P) : Option Nat :=
  (field.get? p.1).bind (fun row => row.get? p.2)

/-- The first loop of `solve_numberlink` (src/main.rs lines 33-46) from
arc index `i` on: look up the labels of both endpoints of each arc (a
panic, modelled `none`, when an endpoint is outside the field) and emit
the unit clause `[-x_i]` exactly when the labels differ. -/
def labelClausesGo (field : Field) : Nat → List Arc → Option (List Clause)
  | _, [] => some []
  | i, a :: rest =>
    match lookupCell field a.1, lookupCell field a.2 with
    | some nu, some nv =>
      (labelClausesGo field (i + 1) rest).map
        (fun cs => (if nu ≠ nv then [[((i, false) : CLit)]] else []) ++ cs)
    | _, _ => none

/-- The label-consistency clause family of the encoder. -/
def label_clauses (field : Field) (arcs : List Arc) : Option (List Clause) :=
  labelClausesGo field 0 arcs

/-- The arc-to-variable map `mp`: after the first loop it sends each arc
to its index in the arc list; a lookup of an arc that was never inserted
models the HashMap panic via `none`. -/
def mpIdx (arcs : List Arc) (a : Arc) : Option Nat := arcs.findIdx? (· == a)

/-- The clauses the second loop of `solve_numberlink` (src/main.rs lines
48-124) adds for one arc `(u, v)`: the anti-parallel clause (2), then
for a source `u` the exactly-one clauses (3) over outgoing variables and
the unit clauses (4) forcing incoming variables false, for a target `u`
the unit clauses (5) on outgoing variables and the exactly-one clauses
(6) over incoming ones, and for a body `u` the at-most-one clauses (8)
and (9) over outgoing and incoming variables. -/
def arcClauses (arcs : List Arc) (s t b : List P) (width height : Nat) (a : Arc) :
    Option (List Clause) := do
  let u := a.1
  let v := a.2
  let adjs := adj u width height
  let x ← mpIdx arcs (u, v)
  let y ← mpIdx arcs (v, u)
  let base : List Clause := [[(x, false), (y, false)]]
  let sPart ←
    if s.contains u then do
      let outgoing ← adjs.mapM (fun w => mpIdx arcs (u, w))
      let incoming ← adjs.mapM (fun w => mpIdx arcs (w, u))
      pure (mk_clause_eq1 outgoing ++ incoming.map (fun z => [((z, false) : CLit)]))
    else pure []
  let tPart ←
    if t.contains u then do
      let outgoing ← adjs.mapM (fun w => mpIdx arcs (u, w))
      let incoming ← adjs.mapM (fun w => mpIdx arcs (w, u))
      pure (outgoing.map (fun z => [((z, false) : CLit)]) ++ mk_clause_eq1 incoming)
    else pure []
  let bPart ←
    if b.contains u then do
      let outgoing ← adjs.mapM (fun w => mpIdx arcs (u, w))
      let incoming ← adjs.mapM (fun w => mpIdx arcs (w, u))
      pure (mk_clause_less2 outgoing ++ mk_clause_less2 incoming)
    else pure []
  pure (base ++ sPart ++ tPart ++ bPart)

/-- The whole formula `solve_numberlink` hands to the engine: the
label-consistency units of the first loop followed by the per-arc
clauses of the second loop. -/
def buildFormula (field : Field) (arcs : List Arc) (s t b : List P)
    (width height : Nat) : Option (List Clause) := do
  let lcl ← label_clauses field arcs
  let rest ← arcs.mapM (arcClauses arcs s t b width height)
  pure (lcl ++ rest.flatten)

/-- `field[0].len()` with the empty-field guard of the source. -/
def widthOf (field : Field) : Nat := (field.headD []).length

/-- `field.len()`. -/
def heightOf (field : Field) : Nat := field.length

/-- The count conditions the entry point demands of the validator's
classification: `|s| > 0`, `|s| = |t|` and `|s|+|t|+|b| = width*height`
(false whenever the validator fails or panics). -/
def classifyOk (field : Field) : Bool :=
  match parse_field field with
  | some (some (s, t, b)) =>
    decide (s.length ≠ 0) && (s.length == t.length) &&
      (s.length + t.length + b.length == widthOf field * heightOf field)
  | _ => false

/-- Embedding of `solve_numberlink` (src/main.rs lines 12-148).  The
`engine` argument is the opaque SAT engine's reported model (as in
`solver.model()`); the source prints it and then returns `Some(vec![])`
regardless, so the embedding binds it without using it.  `none` models
a panic anywhere along the way (inside `parse_field` or while the
encoder indexes the field), `some none` the `return None` branches. -/
def solve_numberlink (field : Field) (engine : Option (Nat → Bool)) :
    Option (Option Sol) :=
  if field.length = 0 ∨ (field.headD []).length = 0 then some none
  else
    let width := (field.headD []).length
    let height := field.length
    match parse_field field with
    | none => none
    | some r =>
      let stb := r.getD ([], [], [])
      let s := stb.1
      let t := stb.2.1
      let b := stb.2.2
      if s.length = 0 ∨ s.length ≠ t.length ∨
          s.length + t.length + b.length ≠ width * height then some none
      else
        match buildFormula field (gen_arcs width height) s t b width height with
        | none => none
        | some _ => some (some [])

/-- Claim C1: for 1 ≤ n ≤ 4, an assignment to the n variables satisfies
every clause of `mk_clause_eq1` exactly when it sets exactly one of them
true, and satisfies every clause of `mk_clause_less2` exactly when it
sets at most one of them true. -/
theorem mk_clause_card_correct :
    ∀ n, n < 5 → 1 ≤ n → ∀ a, a < 2 ^ n →
      ((formulaSat (fun i => Nat.testBit a i) (mk_clause_eq1 (List.range n)) = true ↔
          trueCount (fun i => Nat.testBit a i) n = 1) ∧
        (formulaSat (fun i => Nat.testBit a i) (mk_clause_less2 (List.range n)) = true ↔
          trueCount (fun i => Nat.testBit a i) n ≤ 1)) := by
  decide

/-- Concrete instance of `mk_clause_card_correct`: with two variables the
assignment 0b10 satisfies the exactly-one clause set. -/
theorem mk_clause_card_correct_witness :
    formulaSat (fun i => Nat.testBit 2 i) (mk_clause_eq1 (List.range 2)) = true :=
  ((mk_clause_card_correct 2 (by decide) (by decide) 2 (by decide)).1).mpr (by decide)

/-- Claim C2 (code bug): on the non-square 1-wide, 2-high grid the arc
generator emits the arc `((0,0),(0,1))` whose endpoint `(0,1)` lies
outside the decoded grid (its rows have width 1), and emits no arc for
the genuinely adjacent in-bounds pair `(0,0)`, `(1,0)`: `adj` compares
the row coordinate against `width` and the column coordinate against
`height`, the transpose of the grid the decoder builds.  Consequently
`solve_numberlink` panics (modelled `none`) on the well-formed 2-by-1
field `[[1],[1]]` when the encoder indexes `field[0][1]`. -/
theorem gen_arcs_axis_swap_bug :
    ((((0, 0) : P), ((0, 1) : P)) : Arc) ∈ gen_arcs 1 2 ∧
      ¬ ((((0, 0) : P), ((1, 0) : P)) : Arc) ∈ gen_arcs 1 2 ∧
      solve_numberlink [[1], [1]] none = none := by
  decide

/-- Claim C4 (code bug): on a field where label 1 occurs three times the
validator does not return `None`; the third occurrence evaluates
`ends[cnt[p]]` with `cnt[p] = 2` against the two-element `ends` vector
and panics (modelled `none`) before the `cnt[p] > 2` check can fire. -/
theorem parse_field_panics_on_third_occurrence :
    parse_field [[1, 1, 1]] = none := by
  decide

/-- Claim C3 (code bug): decoding the single-character code `G` on a
1-by-1 grid never terminates, whatever fuel the outer loop is given:
`'G' - 'f'` is a non-positive run length, so `consume` aborts without
advancing `index`, and the outer loop immediately rescans the same
character. -/
theorem decode_field_nonterminating : ∀ fuel, decode_field fuel 1 1 ['G'] = DecRes.spin := by
  intro fuel
  induction fuel with
  | zero => rfl
  | succ n ih =>
    simpa [decode_field, decodeLoop, hexLoopGo, consumeGo, get_num] using ih

/-- Claim C6 (code bug): decoding the code `00` on a 1-by-1 grid writes
past the single grid cell: after the first digit fills the grid the
decoder attempts `res[1][0]`, a row index equal to the height, and
panics instead of stopping. -/
theorem decode_field_writes_out_of_bounds :
    decode_field 8 1 1 ['0', '0'] = DecRes.oob := by
  decide

/-- Claim C5, counterexample: on the well-formed field `[[1,2],[2,1]]`
the entry point returns the same `Some(vec![])` whether the engine
reports unsatisfiable (`none`, no model) or satisfiable (a model); the
unsatisfiable outcome is not a distinct typed failure. -/
theorem solve_numberlink_same_value_sat_and_unsat :
    solve_numberlink [[1, 2], [2, 1]] none = some (some []) ∧
      solve_numberlink [[1, 2], [2, 1]] (some (fun _ => true)) = some (some []) := by
  decide

/-- Claim C5, amended: the return value of `solve_numberlink` is
independent of the engine's verdict — every well-formed field yields
`Some(vec![])` whatever the engine reports, so only malformed input is
distinguished in the result; satisfiability is only printed. -/
theorem solve_numberlink_result_independent_of_engine :
    (∀ (field : Field) (m : Option (Nat → Bool)),
        solve_numberlink field m = solve_numberlink field none) ∧
      solve_numberlink [[1, 2], [2, 1]] none = some (some []) :=
  ⟨fun _ _ => rfl, by decide⟩

/-- Claim C7, counterexample: the code consisting of the single
character `é` (U+00E9, a Unicode alphanumeric outside `[0-9a-zA-Z]`)
passes the alphabet check, so containing a character outside
`[0-9a-zA-Z]` does not imply rejection. -/
theorem is_valid_code_accepts_non_ascii :
    is_valid_code [Char.ofNat 0xE9] = true ∧ isAsciiAlnum (Char.ofNat 0xE9) = false := by
  decide

/-- Claim C7, amended: every code over `[0-9a-zA-Z]` passes the alphabet
check, but the check accepts exactly the Unicode-alphanumeric codes
(Rust's `char::is_alphanumeric`), which include characters outside
`[0-9a-zA-Z]` such as `é`. -/
theorem is_valid_code_amended :
    (∀ code : List Char, code.all isAsciiAlnum = true → is_valid_code code = true) ∧
      is_valid_code [Char.ofNat 0xE9] = true := by
  refine ⟨fun code h => ?_, by decide⟩
  rw [List.all_eq_true] at h
  rw [is_valid_code, List.all_eq_true]
  intro c hc
  have hac := h c hc
  rw [isAsciiAlnum] at hac
  rw [char_is_alphanumeric]
  simp only [decide_eq_true_eq] at hac ⊢
  omega

/-- Concrete instance of `is_valid_code_amended`: the all-ASCII code
`a0Z` passes the alphabet check. -/
theorem is_valid_code_amended_witness : is_valid_code ['a', '0', 'Z'] = true :=
  is_valid_code_amended.1 ['a', '0', 'Z'] (by decide)

/-- Claim C8, counterexample: on the field `[[17]]` the validator panics
(`cnt[17]` is out of bounds of the 17-element counter vector), so the
entry point crashes (modelled `none`) instead of reporting the
malformed-field no-result outcome the claim requires. -/
theorem solve_numberlink_crashes_on_label_17 :
    parse_field [[17]] = none ∧ solve_numberlink [[17]] none = none ∧
      classifyOk [[17]] = false :=
  ⟨by decide, by decide, by decide⟩

/-- Claim C8, amended: for every field on which the validator returns
(rather than panicking), the entry point answers `None` unless the
classification satisfies `|s| = |t| > 0` and `|s|+|t|+|b| = w*h`; such
fields are rejected before any encoding or solving. -/
theorem solve_numberlink_rejects_bad_counts :
    ∀ (field : Field) (m : Option (Nat → Bool)) (r : Option (List P × List P × List P)),
      parse_field field = some r → classifyOk field = false →
      solve_numberlink field m = some none := by
  intro field m r hp hc
  rw [solve_numberlink]
  by_cases h0 : field.length = 0 ∨ (field.headD []).length = 0
  · rw [if_pos h0]
  · rw [if_neg h0, hp]
    cases r with
    | none => simp
    | some stb =>
      obtain ⟨s, t, b⟩ := stb
      rw [classifyOk, hp] at hc
      simp only [Bool.and_eq_false_iff, decide_eq_false_iff_not, not_not, beq_eq_false_iff_ne,
        ne_eq] at hc
      simp only [Option.getD_some]
      rw [if_pos]
      rcases hc with (h | h) | h
      · exact Or.inl h
      · exact Or.inr (Or.inl h)
      · exact Or.inr (Or.inr h)

/-- Concrete instance of `solve_numberlink_rejects_bad_counts`: the
field `[[1]]` has one source and no target, so the entry point rejects
it with `None`. -/
theorem solve_numberlink_rejects_bad_counts_witness :
    solve_numberlink [[1]] none = some none :=
  solve_numberlink_rejects_bad_counts [[1]] none (some ([(0, 0)], [], []))
    (by decide) (by decide)

/-- Every clause the label-consistency loop emits from arc index `j` on
is a negative unit clause for the index of an arc whose endpoint labels
exist and differ. -/
theorem labelClausesGo_shape (field : Field) :
    ∀ (arcs : List Arc) (j : Nat) (F : List Clause),
      labelClausesGo field j arcs = some F →
      ∀ c ∈ F, ∃ k u v nu nv, c = [((k, false) : CLit)] ∧ j ≤ k ∧
        arcs.get? (k - j) = some (u, v) ∧ lookupCell field u = some nu ∧
        lookupCell field v = some nv ∧ nu ≠ nv := by
  intro arcs
  induction arcs with
  | nil =>
    intro j F hF c hc
    simp only [labelClausesGo, Option.some.injEq] at hF
    subst hF
    simp at hc
  | cons a rest ih =>
    intro j F hF c hc
    rw [labelClausesGo] at hF
    cases hu : lookupCell field a.1 with
    | none => rw [hu] at hF; cases hF
    | some nu =>
      cases hv : lookupCell field a.2 with
      | none => rw [hu, hv] at hF; cases hF
      | some nv =>
        rw [hu, hv] at hF
        obtain ⟨F2, hF2, hFeq⟩ := Option.map_eq_some'.mp hF
        subst hFeq
        rcases List.mem_append.mp hc with hpre | hrest
        · by_cases hne : nu ≠ nv
          · rw [if_pos hne] at hpre
            simp only [List.mem_singleton] at hpre
            refine ⟨j, a.1, a.2, nu, nv, hpre, le_refl j, ?_, hu, hv, hne⟩
            simp
          · rw [if_neg hne] at hpre
            simp at hpre
        · obtain ⟨k, u, v, nu2, nv2, hcq, hjk, hget, hu2, hv2, hne2⟩ :=
            ih (j + 1) F2 hF2 c hrest
          refine ⟨k, u, v, nu2, nv2, hcq, by omega, ?_, hu2, hv2, hne2⟩
          have hk : k - j = (k - (j + 1)) + 1 := by omega
          rw [hk]
          simpa using hget

/-- Conversely, an arc whose endpoint labels exist and differ
contributes its negative unit clause to the label-consistency family. -/
theorem labelClausesGo_mem_of (field : Field) :
    ∀ (arcs : List Arc) (j : Nat) (F : List Clause) (i : Nat) (u v : P) (nu nv : Nat),
      labelClausesGo field j arcs = some F →
      arcs.get? i = some (u, v) → lookupCell field u = some nu →
      lookupCell field v = some nv → nu ≠ nv →
      [((j + i, false) : CLit)] ∈ F := by
  intro arcs
  induction arcs with
  | nil =>
    intro j F i u v nu nv _ hget
    simp at hget
  | cons a rest ih =>
    intro j F i u v nu nv hF hget hu hv hne
    rw [labelClausesGo] at hF
    cases i with
    | zero =>
      simp only [List.get?_cons_zero, Option.some.injEq] at hget
      subst hget
      rw [hu, hv] at hF
      obtain ⟨F2, _, hFeq⟩ := Option.map_eq_some'.mp hF
      subst hFeq
      rw [if_pos hne]
      simp
    | succ i2 =>
      cases hu1 : lookupCell field a.1 with
      | none => rw [hu1] at hF; cases hF
      | some nu1 =>
        cases hv1 : lookupCell field a.2 with
        | none => rw [hu1, hv1] at hF; cases hF
        | some nv1 =>
          rw [hu1, hv1] at hF
          obtain ⟨F2, hF2, hFeq⟩ := Option.map_eq_some'.mp hF
          subst hFeq
          have hmem := ih (j + 1) F2 i2 u v nu nv hF2 (by simpa using hget) hu hv hne
          refine List.mem_append.mpr (Or.inr ?_)
          have : j + 1 + i2 = j + (i2 + 1) := by omega
          rwa [this] at hmem

/-- Claim C9: a negative unit clause for the variable of arc number `i`
belongs to the label-consistency clause family exactly when the two
endpoint labels of that arc differ in the field. -/
theorem label_clause_iff_labels_differ
    (field : Field) (width height : Nat) (F : List Clause) (i : Nat)
    (u v : P) (nu nv : Nat)
    (hF : label_clauses field (gen_arcs width height) = some F)
    (hget : (gen_arcs width height).get? i = some (u, v))
    (hu : lookupCell field u = some nu) (hv : lookupCell field v = some nv) :
    ([((i, false) : CLit)] ∈ F ↔ nu ≠ nv) := by
  constructor
  · intro hmem
    obtain ⟨k, u2, v2, nu2, nv2, hc, _, hget2, hu2, hv2, hne2⟩ :=
      labelClausesGo_shape field (gen_arcs width height) 0 F hF _ hmem
    have hik : i = k := by
      simpa using congrArg (fun c => (c.headD (0, true)).1) hc
    subst hik
    rw [Nat.sub_zero, hget] at hget2
    simp only [Option.some.injEq, Prod.mk.injEq] at hget2
    obtain ⟨h1, h2⟩ := hget2
    subst h1
    subst h2
    rw [hu] at hu2
    rw [hv] at hv2
    cases hu2
    cases hv2
    exact hne2
  · intro hne
    have := labelClausesGo_mem_of field (gen_arcs width height) 0 F i u v nu nv
      hF hget hu hv hne
    simpa using this

/-- Concrete instance of `label_clause_iff_labels_differ`: on the field
`[[0,1],[2,3]]` the first generated arc `((0,0),(0,1))` joins labels 0
and 1, and its negative unit clause is in the emitted family. -/
theorem label_clause_iff_labels_differ_witness :
    [((0, false) : CLit)] ∈
      ([[((0, false) : CLit)], [((1, false) : CLit)], [((2, false) : CLit)],
        [((3, false) : CLit)], [((4, false) : CLit)], [((5, false) : CLit)],
        [((6, false) : CLit)], [((7, false) : CLit)]] : List Clause) :=
  (label_clause_iff_labels_differ [[0, 1], [2, 3]] 2 2 _ 0 (0, 0) (0, 1) 0 1
    (by decide) (by decide) (by decide) (by decide)).mpr (by decide)

/-- An index below the length reads back as its default-free value. -/
theorem listGetSome (l : List Nat) (i : Nat) (h : i < l.length) :
    l.get? i = some (l.getD i 0) := by
  rw [List.getD_eq_getD_get?, List.get?_eq_get h]
  rfl

/-- Reading the updated index of a `set` gives the new value. -/
theorem getDSetSelf (l : List Nat) (i v : Nat) (h : i < l.length) :
    (l.set i v).getD i 0 = v := by
  rw [List.getD_eq_getD_get?, List.get?_set_eq_of_lt _ h]
  rfl

/-- Reading any other index of a `set` is unchanged. -/
theorem getDSetNe (l : List Nat) (i j v : Nat) (h : i ≠ j) :
    (l.set i v).getD j 0 = l.getD j 0 := by
  rw [List.getD_eq_getD_get?, List.getD_eq_getD_get?, List.get?_set_ne _ _ h]

/-- Every read of the all-zero counter vector yields zero. -/
theorem getDRep17 (p : Nat) : (List.replicate 17 (0 : Nat)).getD p 0 = 0 := by
  rw [List.getD_eq_getD_get?]
  rcases Nat.lt_or_ge p 17 with h | h
  · rw [List.get?_eq_get (by simpa using h)]
    rw [List.get_replicate]
    rfl
  · rw [List.get?_eq_none.mpr (by simpa using h)]
    rfl

/-- Invariant of the `parse_field` loop: starting from a counter vector
consistent with the bounds (every remaining value at most 16, and the
seen-count plus remaining occurrences of each label at most 2), the loop
returns normally and appends to `ends[0]` the remaining first
occurrences, to `ends[1]` the remaining second occurrences, and to `b`
the remaining zero cells. -/
theorem parse_go_correct :
    ∀ (l : List (P × Nat)) (cnt : List Nat) (s0 t0 b0 : List P),
      cnt.length = 17 →
      (∀ c ∈ l, c.2 ≤ 16) →
      (∀ p, 0 < p → cnt.getD p 0 + l.countP (fun x => x.2 == p) ≤ 2) →
      parse_go l cnt [s0, t0] b0 =
        some (some (s0 ++ occsAt 0 (fun q => cnt.getD q 0) l,
                    t0 ++ occsAt 1 (fun q => cnt.getD q 0) l,
                    b0 ++ zerosOf l)) := by
  intro l
  induction l with
  | nil =>
    intro cnt s0 t0 b0 _ _ _
    simp [parse_go, occsAt, zerosOf]
  | cons c rest ih =>
    intro cnt s0 t0 b0 hlen hval hcnt
    have hvalr : ∀ x ∈ rest, x.2 ≤ 16 := fun x hx => hval x (List.mem_cons_of_mem c hx)
    by_cases hp : 0 < c.2
    · have h16 : c.2 ≤ 16 := hval c (List.mem_cons_self c rest)
      have hplt : c.2 < cnt.length := by omega
      have hget : cnt.get? c.2 = some (cnt.getD c.2 0) := listGetSome cnt c.2 hplt
      rw [List.get?_eq_getElem?] at hget
      have hcountc := hcnt c.2 hp
      rw [List.countP_cons] at hcountc
      simp only [beq_self_eq_true, if_true] at hcountc
      have hk1 : cnt.getD c.2 0 ≤ 1 := by omega
      have hzz : zerosOf (c :: rest) = zerosOf rest := by
        rw [zerosOf, List.filterMap_cons]
        rw [if_neg (by omega : ¬ c.2 = 0)]
        rfl
      rcases Nat.le_one_iff_eq_zero_or_eq_one.mp hk1 with hk | hk
      · rw [hk] at hget
        have hfun : (fun q => if q = c.2 then cnt.getD q 0 + 1 else cnt.getD q 0) =
            (fun q => (cnt.set c.2 1).getD q 0) := by
          funext q
          by_cases hq : q = c.2
          · subst hq
            rw [if_pos rfl, getDSetSelf _ _ _ hplt, hk]
          · rw [if_neg hq, getDSetNe _ _ _ _ (fun h => hq h.symm)]
        have hcntr : ∀ p, 0 < p →
            (cnt.set c.2 1).getD p 0 + rest.countP (fun x => x.2 == p) ≤ 2 := by
          intro p hp2
          by_cases hpc : p = c.2
          · subst hpc
            rw [getDSetSelf _ _ _ hplt]
            omega
          · rw [getDSetNe _ _ _ _ (fun h => hpc h.symm)]
            have := hcnt p hp2
            rw [List.countP_cons] at this
            omega
        have step : parse_go (c :: rest) cnt [s0, t0] b0 =
            parse_go rest (cnt.set c.2 1) [s0 ++ [c.1], t0] b0 := by
          simp [parse_go, hp, hget]
        rw [step]
        rw [ih (cnt.set c.2 1) (s0 ++ [c.1]) t0 b0 (by simpa using hlen) hvalr hcntr]
        have hz : occsAt 0 (fun q => cnt.getD q 0) (c :: rest) =
            [c.1] ++ occsAt 0 (fun q => (cnt.set c.2 1).getD q 0) rest := by
          rw [occsAt, if_pos hp, if_pos hk, hfun]
        have ho : occsAt 1 (fun q => cnt.getD q 0) (c :: rest) =
            occsAt 1 (fun q => (cnt.set c.2 1).getD q 0) rest := by
          rw [occsAt, if_pos hp, if_neg (by omega : ¬ cnt.getD c.2 0 = 1), hfun]
          simp
        rw [hz, ho, hzz, List.append_assoc]
      · rw [hk] at hget
        have hfun : (fun q => if q = c.2 then cnt.getD q 0 + 1 else cnt.getD q 0) =
            (fun q => (cnt.set c.2 2).getD q 0) := by
          funext q
          by_cases hq : q = c.2
          · subst hq
            rw [if_pos rfl, getDSetSelf _ _ _ hplt, hk]
          · rw [if_neg hq, getDSetNe _ _ _ _ (fun h => hq h.symm)]
        have hcntr : ∀ p, 0 < p →
            (cnt.set c.2 2).getD p 0 + rest.countP (fun x => x.2 == p) ≤ 2 := by
          intro p hp2
          by_cases hpc : p = c.2
          · subst hpc
            rw [getDSetSelf _ _ _ hplt]
            rw [hk] at hcountc
            omega
          · rw [getDSetNe _ _ _ _ (fun h => hpc h.symm)]
            have := hcnt p hp2
            rw [List.countP_cons] at this
            omega
        have step : parse_go (c :: rest) cnt [s0, t0] b0 =
            parse_go rest (cnt.set c.2 2) [s0, t0 ++ [c.1]] b0 := by
          simp [parse_go, hp, hget]
        rw [step]
        rw [ih (cnt.set c.2 2) s0 (t0 ++ [c.1]) b0 (by simpa using hlen) hvalr hcntr]
        have hz : occsAt 0 (fun q => cnt.getD q 0) (c :: rest) =
            occsAt 0 (fun q => (cnt.set c.2 2).getD q 0) rest := by
          rw [occsAt, if_pos hp, if_neg (by omega : ¬ cnt.getD c.2 0 = 0), hfun]
          simp
        have ho : occsAt 1 (fun q => cnt.getD q 0) (c :: rest) =
            [c.1] ++ occsAt 1 (fun q => (cnt.set c.2 2).getD q 0) rest := by
          rw [occsAt, if_pos hp, if_pos hk, hfun]
        rw [hz, ho, hzz, List.append_assoc]
    · have hz0 : c.2 = 0 := by omega
      have step : parse_go (c :: rest) cnt [s0, t0] b0 =
          parse_go rest cnt [s0, t0] (b0 ++ [c.1]) := by
        simp [parse_go, hp]
      rw [step]
      have hcntr : ∀ p, 0 < p →
          cnt.getD p 0 + rest.countP (fun x => x.2 == p) ≤ 2 := by
        intro p hp2
        have := hcnt p hp2
        rw [List.countP_cons] at this
        omega
      rw [ih cnt s0 t0 (b0 ++ [c.1]) hlen hvalr hcntr]
      have hz : occsAt 0 (fun q => cnt.getD q 0) (c :: rest) =
          occsAt 0 (fun q => cnt.getD q 0) rest := by
        rw [occsAt, if_neg hp]
      have ho : occsAt 1 (fun q => cnt.getD q 0) (c :: rest) =
          occsAt 1 (fun q => cnt.getD q 0) rest := by
        rw [occsAt, if_neg hp]
      have hzz : zerosOf (c :: rest) = c.1 :: zerosOf rest := by
        rw [zerosOf, List.filterMap_cons, if_pos hz0]
        rfl
      rw [hz, ho, hzz]
      simp [List.append_assoc]

/-- Claim C10: on a field whose values lie in `0..=16` with every
nonzero value occurring at most twice, `parse_field` returns normally
(no out-of-bounds indexing) with the body as the zero cells in
row-major order, the sources as the first row-major occurrence of each
nonzero value and the targets as the second. -/
theorem parse_field_total_on_bounded_fields :
    ∀ (field : Field),
      (∀ c ∈ cellsRM field, c.2 ≤ 16) →
      (∀ c ∈ cellsRM field, 0 < c.2 →
        (cellsRM field).countP (fun x => x.2 == c.2) ≤ 2) →
      parse_field field =
        some (some (sourcesOf (cellsRM field), targetsOf (cellsRM field),
          zerosOf (cellsRM field))) := by
  intro field hval hcc
  have hcnt : ∀ p, 0 < p →
      (List.replicate 17 (0 : Nat)).getD p 0 +
        (cellsRM field).countP (fun x => x.2 == p) ≤ 2 := by
    intro p hp
    rw [getDRep17, Nat.zero_add]
    by_cases hex : ∃ c ∈ cellsRM field, c.2 = p
    · obtain ⟨c, hc, hcp⟩ := hex
      have := hcc c hc (hcp ▸ hp)
      rwa [hcp] at this
    · have hzero : (cellsRM field).countP (fun x => x.2 == p) = 0 := by
        apply List.countP_eq_zero.mpr
        intro x hx
        simp only [beq_iff_eq]
        exact fun h => hex ⟨x, hx, h⟩
      omega
  rw [parse_field, parse_go_correct (cellsRM field) (List.replicate 17 0) [] [] []
    (by simp) hval hcnt]
  have hrep : (fun q => (List.replicate 17 (0 : Nat)).getD q 0) = (fun _ => 0) :=
    funext fun q => getDRep17 q
  rw [sourcesOf, targetsOf, hrep]
  simp

/-- Concrete instance of `parse_field_total_on_bounded_fields` on the
field `[[1,0],[2,1]]`. -/
theorem parse_field_total_on_bounded_fields_witness :
    parse_field [[1, 0], [2, 1]] =
      some (some (sourcesOf (cellsRM [[1, 0], [2, 1]]),
        targetsOf (cellsRM [[1, 0], [2, 1]]), zerosOf (cellsRM [[1, 0], [2, 1]]))) :=
  parse_field_total_on_bounded_fields [[1, 0], [2, 1]] (by decide) (by decide)

end Numberlink
